import Mathlib

/-!
# Verification of the Vocal-agent pipeline core

Shallow embedding of the speech-to-text pipeline core of the Vocal-agent
repository: the pipeline engine (`src/application/src/pipeline.rs`), the
built-in audio stages (`src/orchestration-service/infra/src/audio.rs`,
`src/infra-audio/src/lib.rs`, `src/audio-service/infra/src/audio.rs`), the
whisper transcription adapter (`src/asr-service/infra-asr-whisper/src/lib.rs`,
`src/infra-asr-whisper/src/lib.rs`), the one-shot use-case
(`src/orchestration-service/application/src/usecase/asr.rs`) and the streaming
session driver (`src/infra-streaming/src/lib.rs`).

Modelling conventions:
* `u64`/`u32` values are embedded as `Nat`; the saturating operations of the
  source are embedded explicitly (`satAdd`, truncated subtraction) with the
  `u64` ceiling `U64MAX`, and the unchecked `u64` multiplications (the token
  span product and the resampler's length product) are embedded with an
  explicit wrap (`mulWrap`).
* `f32`/`f64` values are embedded as an extended-rational type `F32`
  (`nan`, `inf`, `ninf`, or a finite rational).  NaN/infinity propagation
  and the IEEE comparison semantics used by `clamp` are modelled directly
  (clamping is comparison-only, so no rounding is involved there); the
  resampler's arithmetic additionally applies IEEE round-to-nearest-even
  after every operation, at 53 bits for `f64` and 24 bits for `f32`
  (`roundQ`, `rnd64`, `rnd32`), including overflow to infinity and gradual
  underflow.  The single-zero value model does not track the sign of zero.
* Stage `execute(&mut ctx)` calls are embedded as functions
  `Ctx → Ctx × Option DomainError`: the returned context carries every
  mutation performed before a failure, exactly as a `&mut` borrow does.
-/

/-- Extended-rational model of `f32` (and of the `f64` intermediates): a value
is NaN, +∞, -∞, or a finite rational.  Arithmetic is exact (no rounding), but
NaN/infinity propagation and IEEE comparisons follow the IEEE rules. -/
inductive F32 where
  | nan : F32
  | inf : F32
  | ninf : F32
  | fin : ℚ → F32
deriving DecidableEq

namespace F32

/-- IEEE `<` on `f32`: NaN is incomparable with everything. -/
def blt : F32 → F32 → Bool
  | .nan, _ => false
  | _, .nan => false
  | .ninf, .ninf => false
  | .ninf, _ => true
  | _, .ninf => false
  | .inf, _ => false
  | .fin _, .inf => true
  | .fin a, .fin b => decide (a < b)

/-- IEEE `==` on `f32`: NaN compares unequal to everything, including itself. -/
def beq : F32 → F32 → Bool
  | .inf, .inf => true
  | .ninf, .ninf => true
  | .fin a, .fin b => decide (a = b)
  | _, _ => false

/-- IEEE addition (exact on finite values). -/
def add : F32 → F32 → F32
  | .nan, _ => .nan
  | _, .nan => .nan
  | .inf, .ninf => .nan
  | .ninf, .inf => .nan
  | .inf, _ => .inf
  | _, .inf => .inf
  | .ninf, _ => .ninf
  | _, .ninf => .ninf
  | .fin a, .fin b => .fin (a + b)

/-- IEEE multiplication (exact on finite values); `∞ · 0 = NaN`. -/
def mul : F32 → F32 → F32
  | .nan, _ => .nan
  | _, .nan => .nan
  | .inf, .inf => .inf
  | .inf, .ninf => .ninf
  | .ninf, .inf => .ninf
  | .ninf, .ninf => .inf
  | .inf, .fin b => if b = 0 then .nan else if 0 < b then .inf else .ninf
  | .fin a, .inf => if a = 0 then .nan else if 0 < a then .inf else .ninf
  | .ninf, .fin b => if b = 0 then .nan else if 0 < b then .ninf else .inf
  | .fin a, .ninf => if a = 0 then .nan else if 0 < a then .ninf else .inf
  | .fin a, .fin b => .fin (a * b)

/-- IEEE negation. -/
def neg : F32 → F32
  | .nan => .nan
  | .inf => .ninf
  | .ninf => .inf
  | .fin q => .fin (-q)

/-- IEEE subtraction (exact on finite values): `a - b = a + (-b)`. -/
def sub (x y : F32) : F32 := x.add y.neg

/-- IEEE division before rounding (exact on finite values); `∞/∞` and `0/0`
are NaN, division of a non-zero finite value by zero gives an infinity.  (The
single-zero value model does not track the sign of zero; the embedded
resampler never divides by zero because the target rate is checked to be
non-zero.) -/
def divE : F32 → F32 → F32
  | .nan, _ => .nan
  | _, .nan => .nan
  | .inf, .inf => .nan
  | .inf, .ninf => .nan
  | .ninf, .inf => .nan
  | .ninf, .ninf => .nan
  | .inf, .fin b => if b < 0 then .ninf else .inf
  | .ninf, .fin b => if b < 0 then .inf else .ninf
  | .fin _, .inf => .fin 0
  | .fin _, .ninf => .fin 0
  | .fin a, .fin b =>
      if b = 0 then (if a = 0 then .nan else if 0 < a then .inf else .ninf)
      else .fin (a / b)

/-- Rust `f32::clamp(self, min, max)`: `if self < min { min } else ...`;
NaN falls through both comparisons and is returned unchanged. -/
def clampF (x lo hi : F32) : F32 :=
  let x1 := if x.blt lo then lo else x
  if hi.blt x1 then hi else x1

def isNan : F32 → Bool
  | .nan => true
  | _ => false

/-- The value is a finite rational in `[-1, +1]`. -/
def inUnit : F32 → Prop
  | .fin q => -1 ≤ q ∧ q ≤ 1
  | _ => False

instance : (x : F32) → Decidable x.inUnit
  | .nan => isFalse (fun h => h)
  | .inf => isFalse (fun h => h)
  | .ninf => isFalse (fun h => h)
  | .fin q => inferInstanceAs (Decidable (-1 ≤ q ∧ q ≤ 1))

end F32

/-- `LanguageTag` from `src/domain/src/entity.rs`. -/
inductive LanguageTag where
  | Fr : LanguageTag
  | En : LanguageTag
  | Auto : LanguageTag
  | Other : String → LanguageTag
deriving DecidableEq

/-- `AudioChunk` from `src/domain/src/entity.rs`. -/
structure AudioChunk where
  sample_rate_hz : ℕ
  samples : List F32
deriving DecidableEq

/-- `TranscriptToken` from `src/domain/src/entity.rs`. -/
structure TranscriptToken where
  text : String
  start_ms : ℕ
  end_ms : ℕ
  confidence : F32
deriving DecidableEq

/-- `TranscriptSegment` from `src/domain/src/entity.rs`. -/
structure TranscriptSegment where
  text : String
  start_ms : ℕ
  end_ms : ℕ
  tokens : List TranscriptToken
deriving DecidableEq

/-- `WordTiming` from `src/domain/src/entity.rs`. -/
structure WordTiming where
  word : String
  start_ms : ℕ
  end_ms : ℕ
  confidence : F32
deriving DecidableEq

/-- `Transcript` from `src/domain/src/entity.rs`. -/
structure Transcript where
  language : LanguageTag
  segments : List TranscriptSegment
deriving DecidableEq

/-- `DomainEvent`.  `src/domain/src/entity.rs` lists the two pipeline-produced
variants (`FinalTranscript`, `AlignmentUpdate`); the `asr_domain` version
additionally carries the protocol-boundary variants enumerated by the
`From<DomainEvent> for ServerMessage` impl in
`src/infra-streaming/src/protocol.rs` (`Ready`, `PartialTranscript`,
`Error`). -/
inductive DomainEvent where
  | Ready : String → DomainEvent
  | PartialTranscriptEv : Transcript → DomainEvent
  | FinalTranscript : Transcript → DomainEvent
  | AlignmentUpdate : List WordTiming → DomainEvent
  | ErrorEv : String → DomainEvent
deriving DecidableEq

/-- The subset of `serde_json::Value` constructors the pipeline core stores in
context extensions (`json!(bool)` and `json!(u32)` in
`src/orchestration-service/infra/src/audio.rs` and the use-case). -/
inductive JsonVal where
  | jbool : Bool → JsonVal
  | jnat : ℕ → JsonVal
  | jstr : String → JsonVal
deriving DecidableEq

/-- `DomainError`.  The enum itself lives in the external `rustycog_core`
crate; the constructors are the ones built inside this repository
(`internal_error`, `external_service_error`, `DomainError::Streaming`) plus
the `InvalidInput` kind named by the spec's failure contract. -/
inductive DomainError where
  | invalidInput : String → DomainError
  | internal : String → DomainError
  | externalService : String → String → DomainError
  | streaming : String → DomainError
deriving DecidableEq

/-- `HashMap::insert`: replace the value at the key if present, else add the
binding.  (Iteration order is never observed by the embedded code, so an
association list is a faithful model.) -/
def setExt : List (String × JsonVal) → String → JsonVal → List (String × JsonVal)
  | [], k, v => [(k, v)]
  | (k', v') :: rest, k, v =>
      if k' = k then (k, v) :: rest else (k', v') :: setExt rest k v

/-- `HashMap::get`. -/
def getExt : List (String × JsonVal) → String → Option JsonVal
  | [], _ => none
  | (k', v') :: rest, k => if k' = k then some v' else getExt rest k

/-- `PipelineContext` from `src/domain/src/entity.rs`. -/
structure PipelineContext where
  session_id : String
  language_hint : Option LanguageTag
  audio : AudioChunk
  transcript : Option Transcript
  aligned_words : List WordTiming
  events : List DomainEvent
  extensions : List (String × JsonVal)
deriving DecidableEq

namespace PipelineContext

/-- `PipelineContext::new` from `src/domain/src/entity.rs`. -/
def new (session_id : String) (language_hint : Option LanguageTag) :
    PipelineContext :=
  { session_id := session_id
    language_hint := language_hint
    audio := { sample_rate_hz := 16000, samples := [] }
    transcript := none
    aligned_words := []
    events := []
    extensions := [] }

/-- `PipelineContext::set_extension` (dropping the returned previous value,
which no caller in the embedded code uses). -/
def setExtension (ctx : PipelineContext) (k : String) (v : JsonVal) :
    PipelineContext :=
  { ctx with extensions := setExt ctx.extensions k v }

/-- `PipelineContext::extension`. -/
def extension (ctx : PipelineContext) (k : String) : Option JsonVal :=
  getExt ctx.extensions k

end PipelineContext

/-- `AudioPreprocessStage::execute` from
`src/orchestration-service/infra/src/audio.rs`: clamp every sample to
`[-1.0, 1.0]` in place; always returns `Ok(())`. -/
def audioPreprocessExecute (ctx : PipelineContext) :
    PipelineContext × Option DomainError :=
  ({ ctx with
      audio := { ctx.audio with
        samples := ctx.audio.samples.map
          (fun s => s.clampF (.fin (-1)) (.fin 1)) } },
   none)

/-- `AudioPreprocessStage::execute` from `src/infra-audio/src/lib.rs`: clamp
every sample, then overwrite the sample rate with the configured target rate;
always returns `Ok(())`. -/
def asrAudioPreprocessExecute (target_sample_rate_hz : ℕ)
    (ctx : PipelineContext) : PipelineContext × Option DomainError :=
  ({ ctx with
      audio :=
        { sample_rate_hz := target_sample_rate_hz
          samples := ctx.audio.samples.map
            (fun s => s.clampF (.fin (-1)) (.fin 1)) } },
   none)

/-- `clamp_samples` from `src/audio-service/infra/src/audio.rs`: clamp each
sample in place, returning whether any sample was changed (per IEEE `!=`,
which reports NaN as changed). -/
def clamp_samples : List F32 → List F32 × Bool
  | [] => ([], false)
  | s :: rest =>
      let c := s.clampF (.fin (-1)) (.fin 1)
      let (rest', flag) := clamp_samples rest
      if (c.beq s) = false then (c :: rest', true) else (s :: rest', flag)

/-! ## Machine-integer helpers (`u64`) -/

/-- Largest `u64` value. -/
def U64MAX : ℕ := 2 ^ 64 - 1

/-- `u64::saturating_add`. -/
def satAdd (a b : ℕ) : ℕ := min (a + b) U64MAX

/-- Unchecked `u64` multiplication (wraps on overflow in release builds). -/
def mulWrap (a b : ℕ) : ℕ := (a * b) % 2 ^ 64

/-- Rust `Ord::clamp` on unsigned integers (callers establish `lo ≤ hi`,
otherwise the Rust code panics). -/
def natClamp (x lo hi : ℕ) : ℕ := max lo (min x hi)

/-! ## IEEE-754 rounding (`f64` / `f32`)

The resampler computes in hardware floats: positions in `f64`, the
interpolation in `f32`.  Finite values are carried as exact rationals and
every arithmetic operation is followed by IEEE round-to-nearest-even at the
format's precision, with overflow to infinity and gradual underflow (the
quantum is floored at the format's subnormal quantum).  All internal
arithmetic of the rounding function is on integers. -/

/-- `⌊log2 n⌋` for `n ≥ 1` (0 for `n ≤ 1`), fuel-based structural recursion
(the fuel is instantiated with `n` itself). -/
def natLog2F : ℕ → ℕ → ℕ
  | 0, _ => 0
  | fuel + 1, n => if n ≤ 1 then 0 else natLog2F fuel (n / 2) + 1

/-- Decides `2^e ≤ a/b` for a positive rational given as `a/b`. -/
def pow2LeRat (e : ℤ) (a b : ℕ) : Bool :=
  if 0 ≤ e then decide (b * 2 ^ e.toNat ≤ a) else decide (b ≤ a * 2 ^ (-e).toNat)

/-- `⌊log2 (a/b)⌋` for a positive rational `a/b`: first guess from the bit
lengths of numerator and denominator, then correct by comparing with the
neighbouring powers of two (the guess is off by at most one). -/
def ratLog2 (a b : ℕ) : ℤ :=
  let e0 : ℤ := (natLog2F a a : ℤ) - (natLog2F b b : ℤ)
  if pow2LeRat (e0 + 1) a b then e0 + 1
  else if pow2LeRat e0 a b then e0
  else e0 - 1

/-- IEEE round-to-nearest-even of the rational `q` at `prec` bits of
precision, minimal quantum `2^qmin` (subnormal floor) and largest finite
magnitude `maxFin`: scale `|q|` by the value's quantum, round the scaled
significand to the nearest even integer, and overflow to infinity past
`maxFin`. -/
def roundQ (prec : ℕ) (qmin : ℤ) (maxFin : ℚ) (q : ℚ) : F32 :=
  if q = 0 then .fin 0
  else
    let a := q.num.natAbs
    let b := q.den
    let E := ratLog2 a b
    let Q := max (E - (prec - 1 : ℤ)) qmin
    let num := if 0 ≤ Q then a else a * 2 ^ (-Q).toNat
    let den := if 0 ≤ Q then b * 2 ^ Q.toNat else b
    let n0 := num / den
    let rem := num % den
    let n := if 2 * rem < den then n0
      else if den < 2 * rem then n0 + 1
      else if n0 % 2 = 0 then n0 else n0 + 1
    let r : ℚ :=
      if 0 ≤ Q then ((n * 2 ^ Q.toNat : ℕ) : ℚ)
      else (n : ℚ) / ((2 ^ (-Q).toNat : ℕ) : ℚ)
    if maxFin < r then (if q < 0 then .ninf else .inf)
    else if q < 0 then .fin (-r)
    else .fin r

/-- Largest finite `f64` value, `(2^53 - 1)·2^971`. -/
def maxFin64 : ℚ := (((2 ^ 53 - 1) * 2 ^ 971 : ℕ) : ℚ)

/-- Largest finite `f32` value, `(2^24 - 1)·2^104`. -/
def maxFin32 : ℚ := (((2 ^ 24 - 1) * 2 ^ 104 : ℕ) : ℚ)

/-- Round a value to `f64` (53-bit precision, subnormal quantum `2^-1074`). -/
def rnd64 : F32 → F32
  | .fin q => roundQ 53 (-1074) maxFin64 q
  | x => x

/-- Round a value to `f32` (24-bit precision, subnormal quantum `2^-149`);
also models the `f64 → f32` cast. -/
def rnd32 : F32 → F32
  | .fin q => roundQ 24 (-149) maxFin32 q
  | x => x

/-- `f64` multiplication: exact product, then rounded. -/
def f64mul (x y : F32) : F32 := rnd64 (x.mul y)

/-- `f64` division: exact quotient, then rounded. -/
def f64div (x y : F32) : F32 := rnd64 (x.divE y)

/-- `f64` subtraction: exact difference, then rounded. -/
def f64sub (x y : F32) : F32 := rnd64 (x.sub y)

/-- `usize as f64` (also used for `u64`): rounds for values ≥ 2^53. -/
def f64ofNat (n : ℕ) : F32 := rnd64 (.fin (n : ℚ))

/-- `f64 as f32` cast. -/
def f32cast (x : F32) : F32 := rnd32 x

/-- `f32` multiplication: exact product, then rounded. -/
def f32mul (x y : F32) : F32 := rnd32 (x.mul y)

/-- `f32` addition: exact sum, then rounded. -/
def f32add (x y : F32) : F32 := rnd32 (x.add y)

/-- `f32` subtraction: exact difference, then rounded. -/
def f32sub (x y : F32) : F32 := rnd32 (x.sub y)

/-- Rust `f64 as usize`: saturating cast — NaN and negative values to 0,
values past `usize::MAX` to `usize::MAX`, otherwise the floor.  (For a
non-negative rational the floor is `num / den` in integer division.) -/
def floorCastUsize : F32 → ℕ
  | .nan => 0
  | .inf => U64MAX
  | .ninf => 0
  | .fin q => min (q.num.toNat / q.den) U64MAX

/-- The value is finite and `f32`-representable (rounding to `f32` leaves it
unchanged), as every sample held in an actual `Vec<f32>` is. -/
def isRepr32 (s : F32) : Prop := (∃ q : ℚ, s = .fin q) ∧ rnd32 s = s

/-! ## Pipeline engine (`src/application/src/pipeline.rs`) -/

/-- The `PipelineStage` trait object: a stable name plus
`execute(&mut ctx) -> Result<(), DomainError>`, embedded as a function
returning the mutated context together with the optional error. -/
structure PipelineStage where
  name : String
  execute : PipelineContext → PipelineContext × Option DomainError

/-- `PipelineEngine`: the ordered stage sequence. -/
structure PipelineEngine where
  stages : List PipelineStage

/-- The loop body of `PipelineEngine::run`: execute stages in order, stopping
at (and returning) the first error; the context keeps every mutation made up
to and including the failing stage. -/
def runStages : List PipelineStage → PipelineContext →
    PipelineContext × Option DomainError
  | [], ctx => (ctx, none)
  | s :: rest, ctx =>
      let r := s.execute ctx
      match r.2 with
      | some e => (r.1, some e)
      | none => runStages rest r.1

/-- `PipelineEngine::run`. -/
def PipelineEngine.run (engine : PipelineEngine) (ctx : PipelineContext) :
    PipelineContext × Option DomainError :=
  runStages engine.stages ctx

/-- Context after executing a stage list unconditionally (the error-free
trace). -/
def ctxAfter : List PipelineStage → PipelineContext → PipelineContext
  | [], ctx => ctx
  | s :: rest, ctx => ctxAfter rest (s.execute ctx).1

/-- Every stage of the list succeeds along the sequential trace from `ctx`. -/
def okTrace : List PipelineStage → PipelineContext → Prop
  | [], _ => True
  | s :: rest, ctx => (s.execute ctx).2 = none ∧ okTrace rest (s.execute ctx).1

instance instDecOkTrace :
    (l : List PipelineStage) → (c : PipelineContext) → Decidable (okTrace l c)
  | [], _ => isTrue True.intro
  | s :: rest, c =>
      haveI := instDecOkTrace rest (s.execute c).1
      inferInstanceAs (Decidable ((s.execute c).2 = none ∧ _))

/-- The events a stage appends when executed on `c` (well-named under the
append-only hypothesis below). -/
def appendedEvents (s : PipelineStage) (c : PipelineContext) :
    List DomainEvent :=
  ((s.execute c).1.events).drop c.events.length

/-- Per-stage appended-event lists along the trace from `c`. -/
def eventDeltas : List PipelineStage → PipelineContext →
    List (List DomainEvent)
  | [], _ => []
  | s :: rest, c => appendedEvents s c :: eventDeltas rest (s.execute c).1

/-- Every stage of the list only appends to `ctx.events` (the stage contract
of spec §4.4: the event log is append-only within a run). -/
def appendOnly (l : List PipelineStage) : Prop :=
  ∀ s ∈ l, ∀ c : PipelineContext,
    ∃ d, ((s.execute c).1).events = c.events ++ d

/-! ## Resampling (`src/orchestration-service/infra/src/audio.rs`) -/

/-- `resample_linear`: linear-interpolation resampler.  The length product
`samples.len() as u64 * target as u64` is the source's wrapping `u64`
multiplication (`mulWrap`); the position `p = i·source/target` is computed in
`f64` (`out_idx as f64` rounds, the `u32` rates convert exactly), the floor
is cast to `usize` with Rust's saturating semantics, `f = p - l` is an `f64`
subtraction cast to `f32`, and the interpolation runs in `f32`.  Index
accesses are embedded with `getD`. -/
def resample_linear (samples : List F32) (source target : ℕ) : List F32 :=
  if source = target then samples
  else if samples.length ≤ 1 then samples
  else
    let N := samples.length
    let output_len := max (mulWrap N target / source) 1
    if output_len ≤ 1 then [samples.getD 0 .nan]
    else
      (List.range output_len).map (fun (i : ℕ) =>
        let p := f64div (f64mul (f64ofNat i) (.fin (source : ℚ)))
          (.fin (target : ℚ))
        let l := floorCastUsize p
        let r := min (l + 1) (N - 1)
        let f := f32cast (f64sub p (f64ofNat l))
        f32add (f32mul (samples.getD l .nan) (f32sub (.fin 1) f))
          (f32mul (samples.getD r .nan) f))

/-- `ResampleStage::execute` from
`src/orchestration-service/infra/src/audio.rs`. -/
def resampleStageExecute (target_sample_rate_hz : ℕ) (ctx : PipelineContext) :
    PipelineContext × Option DomainError :=
  let source := ctx.audio.sample_rate_hz
  if source = 0 ∨ target_sample_rate_hz = 0 then
    (ctx, some (.internal "sample rate must be greater than zero"))
  else if source = target_sample_rate_hz ∨ ctx.audio.samples = [] then
    (ctx.setExtension "audio.resampled" (.jbool false), none)
  else
    let rs := resample_linear ctx.audio.samples source target_sample_rate_hz
    let ctx' := { ctx with
      audio := { sample_rate_hz := target_sample_rate_hz, samples := rs } }
    (((ctx'.setExtension "audio.resampled" (.jbool true)).setExtension
        "audio.source_sample_rate_hz" (.jnat source)).setExtension
        "audio.target_sample_rate_hz" (.jnat target_sample_rate_hz),
     none)

/-! ## Whisper transcription (`src/asr-service/infra-asr-whisper/src/lib.rs`,
`src/infra-asr-whisper/src/lib.rs`) -/

/-- `to_ms_10ms_units`: `u64::try_from(raw).ok()?.checked_mul(10)` — negative
raw values and overflowing products yield `None`. -/
def to_ms_10ms_units (raw : ℤ) : Option ℕ :=
  if 0 ≤ raw then
    if raw.toNat * 10 ≤ U64MAX then some (raw.toNat * 10) else none
  else none

/-- Rust `char::to_ascii_lowercase`. -/
def asciiLowerChar (c : Char) : Char :=
  if 'A' ≤ c ∧ c ≤ 'Z' then Char.ofNat (c.toNat + 32) else c

/-- Rust `str::to_ascii_lowercase`. -/
def asciiLower (s : String) : String :=
  String.mk (s.toList.map asciiLowerChar)

/-- Rust `char::is_whitespace`: the Unicode `White_Space` property — the
code points U+0009–U+000D, U+0020, U+0085, U+00A0, U+1680, U+2000–U+200A,
U+2028, U+2029, U+202F, U+205F and U+3000. -/
def isWsChar (c : Char) : Bool :=
  let n := c.toNat
  decide ((0x9 ≤ n ∧ n ≤ 0xD) ∨ n = 0x20 ∨ n = 0x85 ∨ n = 0xA0 ∨
    n = 0x1680 ∨ (0x2000 ≤ n ∧ n ≤ 0x200A) ∨ n = 0x2028 ∨ n = 0x2029 ∨
    n = 0x202F ∨ n = 0x205F ∨ n = 0x3000)

/-- Rust `str::trim`. -/
def trimStr (s : String) : String :=
  String.mk
    (((s.toList.dropWhile isWsChar).reverse.dropWhile isWsChar).reverse)

/-- `resolve_decode_language` from
`src/asr-service/infra-asr-whisper/src/lib.rs`. -/
def resolve_decode_language (config_language : String)
    (hint : Option LanguageTag) : Option String :=
  match hint with
  | some .Fr => some "fr"
  | some .En => some "en"
  | some .Auto => none
  | some (.Other code) =>
      let normalized := asciiLower (trimStr code)
      if normalized = "" then none else some normalized
  | none =>
      let normalized := asciiLower (trimStr config_language)
      if normalized = "" ∨ normalized = "auto" then none else some normalized

/-- One decoder token as collected into `raw_tokens`: text, probability, the
DTW-or-`t0` start hint (`token_start_hint_ms`) and the `t1` end hint
(`token_end_hint_ms`). -/
structure RawTok where
  text : String
  confidence : F32
  startHint : Option ℕ
  endHint : Option ℕ
deriving DecidableEq

/-- The token-timing derivation loop of
`WhisperTranscriptionAdapter::transcribe_with_runtime`
(`src/asr-service/infra-asr-whisper/src/lib.rs`), for one segment with
bounds `seg_start`, `seg_end` and collected `raw_tokens`. -/
def deriveTokens (seg_start seg_end : ℕ) (raw : List RawTok) :
    List TranscriptToken :=
  let n := raw.length
  let token_span := if 0 < n then max ((seg_end - seg_start) / n) 1 else 1
  raw.enum.map (fun it =>
    let idx := it.1
    let t := it.2
    let fallback_start := satAdd seg_start (mulWrap idx token_span)
    let fallback_end := min (satAdd fallback_start token_span) seg_end
    let next_hint := (raw.get? (idx + 1)).bind (fun t' => t'.startHint)
    let token_start :=
      natClamp (t.startHint.getD fallback_start) seg_start seg_end
    let endCand :=
      (((t.endHint.filter (fun e => decide (token_start < e))).orElse
          (fun _ => next_hint.filter (fun nh => decide (token_start < nh)))).getD
        fallback_end)
    let min_end := satAdd token_start 1
    let max_end := max seg_end min_end
    { text := t.text
      start_ms := token_start
      end_ms := natClamp endCand min_end max_end
      confidence := t.confidence })

/-- `TranscriptionRequest` from `src/domain/src/entity.rs`. -/
structure TranscriptionRequest where
  language_hint : Option LanguageTag
  audio : AudioChunk

/-- `TranscriptionOutput` from `src/domain/src/entity.rs`. -/
structure TranscriptionOutput where
  transcript : Transcript

/-- `WhisperTranscriptionStage::execute` from
`src/infra-asr-whisper/src/lib.rs`, parametric in the `TranscriptionPort`
adapter: on adapter success, set `ctx.transcript` and append exactly one
`FinalTranscript` event; on adapter failure, propagate the error leaving the
context untouched. -/
def whisperStageExecute
    (adapter : TranscriptionRequest → Except DomainError TranscriptionOutput)
    (ctx : PipelineContext) : PipelineContext × Option DomainError :=
  match adapter { language_hint := ctx.language_hint, audio := ctx.audio } with
  | .error e => (ctx, some e)
  | .ok out =>
      ({ ctx with
          transcript := some out.transcript
          events := ctx.events ++ [DomainEvent.FinalTranscript out.transcript] },
       none)

/-! ## One-shot use-case
(`src/orchestration-service/application/src/usecase/asr.rs`) -/

/-- The scan loop inside `extract_alignment_words`: return the words of the
first `AlignmentUpdate` event, if any. -/
def firstAlignWords : List DomainEvent → Option (List WordTiming)
  | [] => none
  | DomainEvent.AlignmentUpdate ws :: _ => some ws
  | _ :: rest => firstAlignWords rest

/-- `extract_alignment_words` from
`src/orchestration-service/application/src/usecase/asr.rs`. -/
def extract_alignment_words (ctx : PipelineContext) : List WordTiming :=
  if ctx.aligned_words ≠ [] then ctx.aligned_words
  else
    match firstAlignWords ctx.events with
    | some ws => ws
    | none => []

/-- The words of the last `AlignmentUpdate` event, if any. -/
def lastAlignWords : List DomainEvent → Option (List WordTiming)
  | [] => none
  | e :: rest =>
      match lastAlignWords rest with
      | some ws => some ws
      | none =>
          match e with
          | DomainEvent.AlignmentUpdate ws => some ws
          | _ => none

/-- The selection rule exactly as claim C4 words it: prefer
`ctx.aligned_words` when non-empty, else the words of the **last**
`AlignmentUpdate` event, else empty. -/
def claimedAlignmentWordsLast (ctx : PipelineContext) : List WordTiming :=
  if ctx.aligned_words ≠ [] then ctx.aligned_words
  else
    match lastAlignWords ctx.events with
    | some ws => ws
    | none => []

/-- The amended selection rule: prefer `ctx.aligned_words` when non-empty,
else the words of the **first** `AlignmentUpdate` event, else empty — written
independently of the code via `filterMap`/`head?`. -/
def amendedAlignmentWordsFirst (ctx : PipelineContext) : List WordTiming :=
  if ctx.aligned_words = [] then
    ((ctx.events.filterMap (fun e =>
        match e with
        | DomainEvent.AlignmentUpdate ws => some ws
        | _ => none)).head?).getD []
  else ctx.aligned_words

/-! ## Streaming session driver (`src/infra-streaming/src/lib.rs`,
`src/infra-streaming/src/protocol.rs`) -/

/-- `PROTOCOL_VERSION` from `src/infra-streaming/src/protocol.rs`. -/
def PROTOCOL_VERSION : ℕ := 1

/-- `ClientMessage` from `src/infra-streaming/src/protocol.rs`. -/
inductive ClientMessage where
  | Start : Option String → Option LanguageTag → ClientMessage
  | AudioFrame : List F32 → ClientMessage
  | Flush : ClientMessage
  | Stop : ClientMessage
  | Ping : ClientMessage
deriving DecidableEq

/-- `ClientEnvelope` from `src/infra-streaming/src/protocol.rs` (the JSON
codec itself is out of the modelled scope; envelopes arrive parsed). -/
structure ClientEnvelope where
  version : ℕ
  message : ClientMessage
deriving DecidableEq

/-- `ServerMessage` from `src/infra-streaming/src/protocol.rs`. -/
inductive ServerMessage where
  | Ready : String → ServerMessage
  | PartialTranscriptMsg : Transcript → ServerMessage
  | FinalTranscriptMsg : Transcript → ServerMessage
  | AlignmentUpdateMsg : List WordTiming → ServerMessage
  | ErrorMsg : String → ServerMessage
  | Pong : ServerMessage
deriving DecidableEq

/-- `From<DomainEvent> for ServerMessage` from
`src/infra-streaming/src/protocol.rs`. -/
def eventToServer : DomainEvent → ServerMessage
  | .Ready sid => .Ready sid
  | .PartialTranscriptEv t => .PartialTranscriptMsg t
  | .FinalTranscript t => .FinalTranscriptMsg t
  | .AlignmentUpdate ws => .AlignmentUpdateMsg ws
  | .ErrorEv m => .ErrorMsg m

/-- Modelled from the spec: the `Display` rendering of `DomainError` used by
`err.to_string()` in `handle_socket` lives in the external `rustycog_core`
crate; the spec only fixes that the trailing protocol message is one `error`
message carrying the failure's message text, so each kind renders its
message.  No claim settled here depends on the rendered text. -/
def displayDomainError : DomainError → String
  | .invalidInput m => m
  | .internal m => m
  | .externalService svc m => svc ++ ": " ++ m
  | .streaming m => m

/-- The shared `ClientMessage::Flush | ClientMessage::Stop` arm of
`process_text_message`: require an active context, run the engine via the
use-case, and on success drain `ctx.events` (taking ownership, leaving it
empty) into outbound messages.  On a failed run the `?` operator propagates
the error before any drain, so the appended events stay on the context. -/
def flushOrStop (run : PipelineContext → PipelineContext × Option DomainError)
    (st : Option PipelineContext) :
    Option PipelineContext × List ServerMessage × Option DomainError :=
  match st with
  | none => (none, [], some (.streaming "start must be sent first"))
  | some ctx =>
      let r := run ctx
      match r.2 with
      | some e => (some r.1, [], some e)
      | none => (some { r.1 with events := [] },
                 (r.1.events).map eventToServer, none)

/-- `process_text_message` from `src/infra-streaming/src/lib.rs`.  The
engine run performed by `AsrSessionUseCase::process_existing_context` is
abstracted as `run` (the driver's behaviour depends only on its mutation of
the context and its returned result); `fresh` stands for the `Uuid::new_v4`
fallback session id.  Returns the new state, the messages sent, and the
error propagated to `handle_socket`, if any. -/
def processTextMessage
    (run : PipelineContext → PipelineContext × Option DomainError)
    (fresh : String) (st : Option PipelineContext) (env : ClientEnvelope) :
    Option PipelineContext × List ServerMessage × Option DomainError :=
  if env.version ≠ PROTOCOL_VERSION then
    (st, [],
     some (.streaming ("unsupported protocol version " ++
       toString env.version ++ ", expected " ++ toString PROTOCOL_VERSION)))
  else
    match env.message with
    | .Start session_id language_hint =>
        let sid := session_id.getD fresh
        (some (PipelineContext.new sid language_hint), [.Ready sid], none)
    | .AudioFrame pcm =>
        match st with
        | none => (none, [], some (.streaming "start must be sent first"))
        | some ctx =>
            (some { ctx with
                audio := { ctx.audio with
                  samples := ctx.audio.samples ++ pcm } },
             [], none)
    | .Flush => flushOrStop run st
    | .Stop => flushOrStop run st
    | .Ping => (st, [.Pong], none)

/-- One inbound websocket frame as `handle_socket` sees it. -/
inductive Frame where
  | text : ClientEnvelope → Frame
  | binary : Frame
  | close : Frame
  | ping : Frame
deriving DecidableEq

/-- The `handle_socket` message loop from `src/infra-streaming/src/lib.rs`
over a list of inbound frames: `Close` returns (connection over); a transport
`Ping` answers `Pong`; a binary frame answers an error message and
continues; a text frame goes through `process_text_message`, and if that
fails the driver sends one `Error` message and returns, dropping the
remaining frames.  Returns the emitted messages and the final context. -/
def handleFrames (run : PipelineContext → PipelineContext × Option DomainError)
    (fresh : String) :
    Option PipelineContext → List Frame →
    List ServerMessage × Option PipelineContext
  | st, [] => ([], st)
  | st, f :: rest =>
      match f with
      | .close => ([], st)
      | .ping =>
          let r := handleFrames run fresh st rest
          (.Pong :: r.1, r.2)
      | .binary =>
          let r := handleFrames run fresh st rest
          (.ErrorMsg "binary frames are not supported; use JSON audio_frame"
             :: r.1, r.2)
      | .text env =>
          let p := processTextMessage run fresh st env
          match p.2.2 with
          | none =>
              let r := handleFrames run fresh p.1 rest
              (p.2.1 ++ r.1, r.2)
          | some e => (p.2.1 ++ [.ErrorMsg (displayDomainError e)], p.1)

/-! ## Concrete fixtures and claim-side definitions -/

/-- A context whose only audio sample is NaN. -/
def ctxNaN : PipelineContext :=
  { PipelineContext.new "s" none with audio := ⟨16000, [F32.nan]⟩ }

/-- A concrete context with out-of-range (but non-NaN) samples. -/
def ctxClampW : PipelineContext :=
  { PipelineContext.new "w" none with
      audio := ⟨44100, [F32.fin 2, F32.fin (-3), F32.inf]⟩ }

def wA : WordTiming := ⟨"a", 0, 1, .fin 1⟩

def wB : WordTiming := ⟨"b", 0, 1, .fin 1⟩

/-- A context with empty `aligned_words` and two `AlignmentUpdate` events. -/
def ctxAlign2 : PipelineContext :=
  { PipelineContext.new "s" none with
      events := [.AlignmentUpdate [wA], .AlignmentUpdate [wB]] }

/-- A context holding exactly one sample at 8 kHz. -/
def ctxOneSample : PipelineContext :=
  { PipelineContext.new "s" none with audio := ⟨8000, [.fin 1]⟩ }

def tr0 : Transcript := ⟨.En, [⟨"bonjour world", 0, 700, []⟩]⟩

def err0 : DomainError := .internal "mock failure"

/-- An engine run that appends one event and then fails. -/
def failAfterEventRun : PipelineContext → PipelineContext × Option DomainError :=
  fun c => ({ c with events := c.events ++ [.FinalTranscript tr0] }, some err0)

/-- An engine run that succeeds without touching the context. -/
def okRun : PipelineContext → PipelineContext × Option DomainError :=
  fun c => (c, none)

def err1 : DomainError := .externalService "whisper" "decode failed"

def stA : PipelineStage :=
  ⟨"a", fun c => ({ c with events := c.events ++ [.AlignmentUpdate [wA]] }, none)⟩

def stFail : PipelineStage :=
  ⟨"f", fun c => ({ c with events := c.events ++ [.ErrorEv "boom"] }, some err1)⟩

def stB : PipelineStage :=
  ⟨"b", fun c => (c, none)⟩

def ctx0w : PipelineContext := PipelineContext.new "session" none

def rawW : List RawTok :=
  [⟨"a", .fin 1, none, none⟩, ⟨"b", .fin 1, some 40, some 90⟩]

def tW : TranscriptToken := ⟨"a", 0, 40, .fin 1⟩

/-- A transcription adapter that always succeeds with the fixed transcript. -/
def adapterW : TranscriptionRequest → Except DomainError TranscriptionOutput :=
  fun _ => .ok ⟨tr0⟩

/-- The claim's per-index output formula, in the claim's stated precisions:
`p = i·source/target` in double precision, `l = ⌊p⌋` (saturating `usize`
cast), `r = min(l+1, N-1)`, `f = (p - l)` as `f32`, and
`out[i] = samples[l]·(1-f) + samples[r]·f` computed in `f32`. -/
def specInterp (samples : List F32) (source target i : ℕ) : F32 :=
  let p := f64div (f64mul (f64ofNat i) (.fin (source : ℚ))) (.fin (target : ℚ))
  let l := floorCastUsize p
  let r := min (l + 1) (samples.length - 1)
  let f := f32cast (f64sub p (f64ofNat l))
  f32add (f32mul (samples.getD l .nan) (f32sub (.fin 1) f))
    (f32mul (samples.getD r .nan) f)

/-- Samples whose last two entries differ from the value interpolated at the
last output index when downsampling 3:1. -/
def sW : List F32 := [.fin 0, .fin 0, .fin 0, .fin 0, .fin 1, .fin 1]

/-! ## Helper lemmas -/

/-- IEEE equality only ever holds between structurally equal model values. -/
theorem F32.beq_true_eq {a b : F32} (h : a.beq b = true) : a = b := by
  cases a <;> cases b <;> simp_all [F32.beq]

/-- Clamping to `[-1, 1]` sends every non-NaN value into the unit range. -/
theorem F32.clampF_unit (x : F32) (hx : x ≠ .nan) :
    (x.clampF (.fin (-1)) (.fin 1)).inUnit := by
  cases x with
  | nan => exact absurd rfl hx
  | inf => decide
  | ninf => decide
  | fin q =>
      simp only [F32.clampF, F32.blt]
      split_ifs with h1 h2 h3 <;> simp_all [F32.inUnit]

/-- Clamping to `[-1, 1]` keeps NaN. -/
theorem F32.clampF_nan : (F32.nan.clampF (.fin (-1)) (.fin 1)) = F32.nan := rfl

/-- `clamp_samples` changes each sample to its clamped value. -/
theorem clamp_samples_fst (l : List F32) :
    (clamp_samples l).1 = l.map (fun s => s.clampF (.fin (-1)) (.fin 1)) := by
  induction l with
  | nil => rfl
  | cons s rest ih =>
      simp only [clamp_samples, List.map_cons]
      split_ifs with h
      · simp [ih]
      · have hb : (s.clampF (.fin (-1)) (.fin 1)).beq s = true := by
          revert h
          cases ((s.clampF (.fin (-1)) (.fin 1)).beq s) <;> simp
        rw [F32.beq_true_eq hb] at *
        simp [ih, ← F32.beq_true_eq hb]

/-- Lookup after inserting the same key. -/
theorem getExt_setExt_same (l : List (String × JsonVal)) (k : String)
    (v : JsonVal) : getExt (setExt l k v) k = some v := by
  induction l with
  | nil => simp [setExt, getExt]
  | cons p rest ih =>
      by_cases h : p.1 = k <;> simp [setExt, getExt, h, ih]

/-- Lookup after inserting a different key. -/
theorem getExt_setExt_ne (l : List (String × JsonVal)) (k k' : String)
    (v : JsonVal) (h : k' ≠ k) :
    getExt (setExt l k' v) k = getExt l k := by
  induction l with
  | nil => simp [setExt, getExt, h]
  | cons p rest ih =>
      by_cases hp : p.1 = k' <;> simp [setExt, getExt, hp, h, ih]

/-! ## Claim C7 — audio clamp stage -/

/-- C7 (counterexample): as stated, the claim that `audio_clamp` maps *every*
sample into `[-1.0, +1.0]` is false: on a NaN input sample the stage
leaves NaN in place (Rust `f32::clamp` propagates NaN), and NaN is not in the
range. -/
theorem c7_audio_clamp_counterexample :
    (audioPreprocessExecute ctxNaN).2 = none ∧
    (audioPreprocessExecute ctxNaN).1.audio.samples = [F32.nan] ∧
    ¬ F32.inUnit F32.nan := by
  refine ⟨rfl, rfl, ?_⟩
  intro h
  exact h

/-- C7 (amended): the clamp stage never fails and clamps in place; *under the
precondition that no input sample is NaN* every output sample lies in
`[-1.0, +1.0]`; the sample count and every other context field are unchanged.
The `src/orchestration-service/infra/src/audio.rs` variant leaves the sample
rate unchanged, while the `src/infra-audio/src/lib.rs` variant overwrites it
with its configured target rate (same clamped samples). -/
theorem c7_audio_clamp_amended (ctx : PipelineContext) (target : ℕ)
    (hnn : ∀ s ∈ ctx.audio.samples, s ≠ F32.nan) :
    (audioPreprocessExecute ctx).2 = none ∧
    (∀ s ∈ (audioPreprocessExecute ctx).1.audio.samples, s.inUnit) ∧
    (audioPreprocessExecute ctx).1.audio.samples.length =
      ctx.audio.samples.length ∧
    (audioPreprocessExecute ctx).1.audio.sample_rate_hz =
      ctx.audio.sample_rate_hz ∧
    (audioPreprocessExecute ctx).1.session_id = ctx.session_id ∧
    (audioPreprocessExecute ctx).1.language_hint = ctx.language_hint ∧
    (audioPreprocessExecute ctx).1.transcript = ctx.transcript ∧
    (audioPreprocessExecute ctx).1.aligned_words = ctx.aligned_words ∧
    (audioPreprocessExecute ctx).1.events = ctx.events ∧
    (audioPreprocessExecute ctx).1.extensions = ctx.extensions ∧
    (asrAudioPreprocessExecute target ctx).2 = none ∧
    (asrAudioPreprocessExecute target ctx).1.audio.samples =
      (audioPreprocessExecute ctx).1.audio.samples ∧
    (asrAudioPreprocessExecute target ctx).1.audio.sample_rate_hz = target := by
  refine ⟨rfl, ?_, by simp [audioPreprocessExecute], rfl, rfl, rfl, rfl, rfl,
    rfl, rfl, rfl, rfl, rfl⟩
  intro s hs
  simp only [audioPreprocessExecute, List.mem_map] at hs
  obtain ⟨x, hx, rfl⟩ := hs
  exact F32.clampF_unit x (hnn x hx)

/-- Witness for C7 (amended) at a concrete context. -/
theorem c7_audio_clamp_witness :
    (audioPreprocessExecute ctxClampW).2 = none ∧
    F32.inUnit
      (((audioPreprocessExecute ctxClampW).1.audio.samples).getD 0 F32.nan) ∧
    (audioPreprocessExecute ctxClampW).1.audio.sample_rate_hz =
      ctxClampW.audio.sample_rate_hz := by
  have h := c7_audio_clamp_amended ctxClampW 8000 (by decide)
  exact ⟨h.1, h.2.1 _ (by decide), h.2.2.2.1⟩

/-! ## Claim C10 — NaN propagation through the clamp -/

/-- C10: the clamp operation propagates NaN — every NaN input sample is still
NaN after `audio_clamp` (both the orchestration-service stage and the
audio-service `clamp_samples`) — and therefore the `[-1,1]` range guarantee
holds under the precondition that no input sample is NaN. -/
theorem c10_nan_propagation :
    (∀ (ctx : PipelineContext) (i : ℕ),
      ctx.audio.samples.get? i = some F32.nan →
      (audioPreprocessExecute ctx).1.audio.samples.get? i = some F32.nan) ∧
    (∀ (samples : List F32) (i : ℕ),
      samples.get? i = some F32.nan →
      (clamp_samples samples).1.get? i = some F32.nan) ∧
    (∀ samples : List F32, (∀ s ∈ samples, s ≠ F32.nan) →
      ∀ s ∈ (clamp_samples samples).1, s.inUnit) ∧
    (∀ ctx : PipelineContext, (∀ s ∈ ctx.audio.samples, s ≠ F32.nan) →
      ∀ s ∈ (audioPreprocessExecute ctx).1.audio.samples, s.inUnit) := by
  refine ⟨?_, ?_, ?_, ?_⟩
  · intro ctx i h
    simp only [audioPreprocessExecute, List.get?_map, h]
    rfl
  · intro samples i h
    rw [clamp_samples_fst]
    simp only [List.get?_map, h]
    rfl
  · intro samples hnn s hs
    rw [clamp_samples_fst] at hs
    simp only [List.mem_map] at hs
    obtain ⟨x, hx, rfl⟩ := hs
    exact F32.clampF_unit x (hnn x hx)
  · intro ctx hnn s hs
    simp only [audioPreprocessExecute, List.mem_map] at hs
    obtain ⟨x, hx, rfl⟩ := hs
    exact F32.clampF_unit x (hnn x hx)

/-- Witness for C10 at a concrete sample list containing NaN. -/
theorem c10_nan_propagation_witness :
    (clamp_samples [F32.fin 5, F32.nan]).1.get? 1 = some F32.nan :=
  c10_nan_propagation.2.1 [F32.fin 5, F32.nan] 1 (by decide)

/-! ## Claim C4 — aligned-word selection in the one-shot use-case -/

/-- The scan loop of `extract_alignment_words` returns the first
`AlignmentUpdate` of the event list. -/
theorem firstAlignWords_eq (evs : List DomainEvent) :
    firstAlignWords evs = (evs.filterMap (fun e =>
      match e with
      | DomainEvent.AlignmentUpdate ws => some ws
      | _ => none)).head? := by
  induction evs with
  | nil => rfl
  | cons e rest ih => cases e <;> simp [firstAlignWords, List.filterMap_cons, ih]

/-- C4 (counterexample): with two `AlignmentUpdate` events on the context the
code returns the words of the *first* one, not of the last one as the claim
states. -/
theorem c4_alignment_selection_counterexample :
    extract_alignment_words ctxAlign2 = [wA] ∧
    claimedAlignmentWordsLast ctxAlign2 = [wB] ∧
    ([wA] : List WordTiming) ≠ [wB] := by decide

/-- C4 (amended): the one-shot use-case selects `ctx.aligned_words` if
non-empty, otherwise the words of the **first** `AlignmentUpdate` event in
`ctx.events` if any exists, otherwise the empty sequence. -/
theorem c4_alignment_selection_amended (ctx : PipelineContext) :
    extract_alignment_words ctx = amendedAlignmentWordsFirst ctx := by
  unfold extract_alignment_words amendedAlignmentWordsFirst
  by_cases h : ctx.aligned_words = []
  · simp only [h, ne_eq, not_true_eq_false, if_false, if_true, firstAlignWords_eq]
    cases hh : (ctx.events.filterMap (fun e =>
      match e with
      | DomainEvent.AlignmentUpdate ws => some ws
      | _ => none)).head? <;> simp [hh]
  · simp [h]

/-! ## Claim C9 — decoder language resolution -/

/-- C9 (counterexample): with the adapter's configured language set to
`"fr"` and no `ctx.language_hint`, the decoder receives `Some("fr")`, not the
null hint the claim states for the absent case. -/
theorem c9_language_counterexample :
    resolve_decode_language "fr" none = some "fr" ∧
    (some "fr" : Option String) ≠ none := by decide

/-- C9 (amended): `Fr`/`En` resolve to `"fr"`/`"en"`; `Auto` resolves to the
null hint; `Other(code)` resolves to the lowercased trimmed code *unless that
normalization is empty*, in which case the null hint; when the hint is absent
the decoder receives the adapter's configured language (lowercased, trimmed)
unless that normalization is empty or `"auto"`, in which case the null
hint. -/
theorem c9_language_amended (cfg : String) (hint : Option LanguageTag) :
    (hint = some .Fr → resolve_decode_language cfg hint = some "fr") ∧
    (hint = some .En → resolve_decode_language cfg hint = some "en") ∧
    (hint = some .Auto → resolve_decode_language cfg hint = none) ∧
    (∀ code, hint = some (.Other code) →
      resolve_decode_language cfg hint =
        (if asciiLower (trimStr code) = "" then none
         else some (asciiLower (trimStr code)))) ∧
    (hint = none →
      resolve_decode_language cfg hint =
        (if asciiLower (trimStr cfg) = "" ∨ asciiLower (trimStr cfg) = "auto"
         then none else some (asciiLower (trimStr cfg)))) := by
  refine ⟨?_, ?_, ?_, ?_, ?_⟩ <;> intros <;> subst_vars <;> rfl

/-- Witness for C9 (amended): an `Other` hint with surrounding whitespace and
upper case resolves to its normalization. -/
theorem c9_language_witness :
    resolve_decode_language "auto" (some (.Other " En ")) = some "en" := by
  have h := (c9_language_amended "auto" (some (.Other " En "))).2.2.2.1 " En " rfl
  rw [h]
  decide

/-! ## Claim C8 — resample stage boundary behaviour -/

/-- C8 (counterexample): with one sample and source 8000 ≠ target 16000 the
stage is *not* an identity on `ctx.audio`: the sample values pass through
unchanged but the sample rate is overwritten with the target and the
`audio.resampled` extension is set to `true`. -/
theorem c8_resample_identity_counterexample :
    (resampleStageExecute 16000 ctxOneSample).2 = none ∧
    (resampleStageExecute 16000 ctxOneSample).1.audio.samples = [.fin 1] ∧
    (resampleStageExecute 16000 ctxOneSample).1.audio.sample_rate_hz = 16000 ∧
    ctxOneSample.audio.sample_rate_hz = 8000 ∧
    (resampleStageExecute 16000 ctxOneSample).1.extension "audio.resampled" =
      some (.jbool true) := by decide

/-- C8 (amended): the stage fails with `InternalError` exactly when the
source or the target rate is 0 (checked before anything else, so this also
covers `source = target = 0`).  With both rates non-zero it is an identity on
`ctx.audio` with extension `audio.resampled = false` when `source = target`
or when the sample list is empty; when `source ≠ target` and there is exactly
one sample, the sample values are preserved but the sample rate is set to the
target and `audio.resampled = true`. -/
theorem c8_resample_identity_amended (target : ℕ) (ctx : PipelineContext) :
    ((resampleStageExecute target ctx).2 ≠ none ↔
      (ctx.audio.sample_rate_hz = 0 ∨ target = 0)) ∧
    ((ctx.audio.sample_rate_hz = 0 ∨ target = 0) →
      resampleStageExecute target ctx =
        (ctx, some (.internal "sample rate must be greater than zero"))) ∧
    (ctx.audio.sample_rate_hz ≠ 0 → target ≠ 0 →
      (ctx.audio.sample_rate_hz = target ∨ ctx.audio.samples = []) →
      (resampleStageExecute target ctx).2 = none ∧
      (resampleStageExecute target ctx).1.audio = ctx.audio ∧
      (resampleStageExecute target ctx).1.extension "audio.resampled" =
        some (.jbool false)) ∧
    (ctx.audio.sample_rate_hz ≠ 0 → target ≠ 0 →
      ctx.audio.sample_rate_hz ≠ target → ctx.audio.samples.length = 1 →
      (resampleStageExecute target ctx).2 = none ∧
      (resampleStageExecute target ctx).1.audio.samples = ctx.audio.samples ∧
      (resampleStageExecute target ctx).1.audio.sample_rate_hz = target ∧
      (resampleStageExecute target ctx).1.extension "audio.resampled" =
        some (.jbool true)) := by
  refine ⟨?_, ?_, ?_, ?_⟩
  · constructor
    · intro h
      by_contra hz
      rw [resampleStageExecute] at h
      rw [if_neg hz] at h
      split_ifs at h <;> simp at h
    · intro h
      simp [resampleStageExecute, if_pos h]
  · intro h
    simp [resampleStageExecute, if_pos h]
  · intro hs ht hid
    have hz : ¬ (ctx.audio.sample_rate_hz = 0 ∨ target = 0) := by
      rintro (h | h) <;> [exact hs h; exact ht h]
    refine ⟨?_, ?_, ?_⟩ <;>
      simp only [resampleStageExecute, if_neg hz, if_pos hid,
        PipelineContext.setExtension, PipelineContext.extension]
    · exact getExt_setExt_same _ _ _
  · intro hs ht hne hlen
    have hz : ¬ (ctx.audio.sample_rate_hz = 0 ∨ target = 0) := by
      rintro (h | h) <;> [exact hs h; exact ht h]
    have hne' : ¬ (ctx.audio.sample_rate_hz = target ∨ ctx.audio.samples = []) := by
      rintro (h | h)
      · exact hne h
      · rw [h] at hlen
        simp at hlen
    have hres : resample_linear ctx.audio.samples ctx.audio.sample_rate_hz
        target = ctx.audio.samples := by
      rw [resample_linear, if_neg hne, if_pos (by omega)]
    refine ⟨?_, ?_, ?_, ?_⟩ <;>
      simp only [resampleStageExecute, if_neg hz, if_neg hne',
        PipelineContext.setExtension, PipelineContext.extension, hres]
    rw [getExt_setExt_ne _ _ _ _ (by decide), getExt_setExt_ne _ _ _ _ (by decide)]
    exact getExt_setExt_same _ _ _

/-- Witness for C8 (amended) at the one-sample context. -/
theorem c8_resample_identity_witness :
    (resampleStageExecute 16000 ctxOneSample).2 = none ∧
    (resampleStageExecute 16000 ctxOneSample).1.audio.samples =
      ctxOneSample.audio.samples ∧
    (resampleStageExecute 16000 ctxOneSample).1.audio.sample_rate_hz = 16000 ∧
    (resampleStageExecute 16000 ctxOneSample).1.extension "audio.resampled" =
      some (.jbool true) :=
  (c8_resample_identity_amended 16000 ctxOneSample).2.2.2
    (by decide) (by decide) (by decide) (by decide)

/-! ## Claims C2 and C3 — streaming drain-on-failure and Stop semantics -/

/-- C2 (counterexample): when the run triggered by `Flush` fails after
appending a `FinalTranscript` event, the driver emits only the `Error`
message — the appended event is *not* drained (it stays on the context),
contradicting the claimed `[Ready, FinalTranscript, Error]` emission. -/
theorem c2_flush_failure_counterexample :
    handleFrames failAfterEventRun "u" none
        [.text ⟨1, .Start (some "it") none⟩, .text ⟨1, .Flush⟩] =
      ([.Ready "it", .ErrorMsg "mock failure"],
       some { PipelineContext.new "it" none with
                events := [.FinalTranscript tr0] }) ∧
    ([ServerMessage.Ready "it", .ErrorMsg "mock failure"] ≠
      [.Ready "it", .FinalTranscriptMsg tr0, .ErrorMsg "mock failure"]) := by
  decide

/-- C2 (amended): if the engine run triggered by `Flush` or `Stop` fails, the
events appended before the failure are **not** drained: they remain on the
context (the `?` operator propagates the error before the drain), the client
receives exactly one `Error` message, and the connection is closed (the
remaining frames are dropped). -/
theorem c2_flush_failure_amended
    (run : PipelineContext → PipelineContext × Option DomainError)
    (fresh : String) (ctx ctx' : PipelineContext) (e : DomainError)
    (rest : List Frame) (hrun : run ctx = (ctx', some e)) :
    handleFrames run fresh (some ctx) (.text ⟨1, .Flush⟩ :: rest) =
      ([.ErrorMsg (displayDomainError e)], some ctx') ∧
    handleFrames run fresh (some ctx) (.text ⟨1, .Stop⟩ :: rest) =
      ([.ErrorMsg (displayDomainError e)], some ctx') := by
  constructor <;>
    simp [handleFrames, processTextMessage, PROTOCOL_VERSION, flushOrStop, hrun]

/-- Witness for C2 (amended) with the concrete failing run. -/
theorem c2_flush_failure_witness :
    handleFrames failAfterEventRun "u"
        (some (PipelineContext.new "it" none)) [.text ⟨1, .Flush⟩] =
      ([.ErrorMsg (displayDomainError err0)],
       some { PipelineContext.new "it" none with
                events := [.FinalTranscript tr0] }) :=
  (c2_flush_failure_amended failAfterEventRun "u"
      (PipelineContext.new "it" none)
      { PipelineContext.new "it" none with events := [.FinalTranscript tr0] }
      err0 [] rfl).1

/-- C3 (counterexample): after a successful `Stop` the message loop keeps
accepting client messages — a following `Ping` is still answered with `Pong`
— so `Stop` does not move the session to a terminal state as the claim
says. -/
theorem c3_stop_terminal_counterexample :
    handleFrames okRun "u" none
        [.text ⟨1, .Start (some "it") none⟩, .text ⟨1, .Stop⟩,
         .text ⟨1, .Ping⟩] =
      ([.Ready "it", .Pong], some (PipelineContext.new "it" none)) ∧
    ([ServerMessage.Ready "it", .Pong] ≠ [.Ready "it"]) := by decide

/-- C3 (amended): `Stop` is handled identically to `Flush` — the two messages
share a single match arm, so they produce the same drain and the same
resulting state — and after a successful `Stop` the message loop continues
with the remaining frames exactly as it does after a `Flush`: `Stop` does not
move the session to a terminal state. -/
theorem c3_stop_equals_flush_amended
    (run : PipelineContext → PipelineContext × Option DomainError)
    (fresh : String) (st : Option PipelineContext) (rest : List Frame) :
    processTextMessage run fresh st ⟨1, .Stop⟩ =
      processTextMessage run fresh st ⟨1, .Flush⟩ ∧
    (∀ ctx ctx', run ctx = (ctx', none) → st = some ctx →
      handleFrames run fresh st (.text ⟨1, .Stop⟩ :: rest) =
        (((ctx'.events).map eventToServer) ++
          (handleFrames run fresh (some { ctx' with events := [] }) rest).1,
         (handleFrames run fresh (some { ctx' with events := [] }) rest).2)) := by
  constructor
  · rfl
  · rintro ctx ctx' hrun rfl
    simp [handleFrames, processTextMessage, PROTOCOL_VERSION, flushOrStop, hrun]

/-- Witness for C3 (amended): a `Ping` after `Stop` is still processed. -/
theorem c3_stop_equals_flush_witness :
    handleFrames okRun "u" (some (PipelineContext.new "it" none))
        [.text ⟨1, .Stop⟩, .text ⟨1, .Ping⟩] =
      ((((PipelineContext.new "it" none).events).map eventToServer) ++
        (handleFrames okRun "u"
          (some { PipelineContext.new "it" none with events := [] })
          [.text ⟨1, .Ping⟩]).1,
       (handleFrames okRun "u"
          (some { PipelineContext.new "it" none with events := [] })
          [.text ⟨1, .Ping⟩]).2) :=
  (c3_stop_equals_flush_amended okRun "u"
      (some (PipelineContext.new "it" none)) [.text ⟨1, .Ping⟩]).2
    (PipelineContext.new "it" none) (PipelineContext.new "it" none) rfl rfl

/-! ## Claim C1 — engine error propagation and ordering -/

theorem runStages_cons_ok (s : PipelineStage) (rest : List PipelineStage)
    (ctx : PipelineContext) (h : (s.execute ctx).2 = none) :
    runStages (s :: rest) ctx = runStages rest (s.execute ctx).1 := by
  simp only [runStages, h]

theorem runStages_fail (s : PipelineStage) (post : List PipelineStage)
    (ctx : PipelineContext) (e : DomainError)
    (h : (s.execute ctx).2 = some e) :
    runStages (s :: post) ctx = ((s.execute ctx).1, some e) := by
  simp only [runStages, h]

theorem runStages_append (pre l : List PipelineStage) (ctx : PipelineContext)
    (h : okTrace pre ctx) :
    runStages (pre ++ l) ctx = runStages l (ctxAfter pre ctx) := by
  induction pre generalizing ctx with
  | nil => rfl
  | cons s rest ih =>
      obtain ⟨h1, h2⟩ := h
      simp only [List.cons_append, ctxAfter]
      rw [runStages_cons_ok _ _ _ h1]
      exact ih _ h2

theorem runStages_ok (l : List PipelineStage) (ctx : PipelineContext)
    (h : okTrace l ctx) : runStages l ctx = (ctxAfter l ctx, none) := by
  induction l generalizing ctx with
  | nil => rfl
  | cons s rest ih =>
      obtain ⟨h1, h2⟩ := h
      simp only [ctxAfter]
      rw [runStages_cons_ok _ _ _ h1]
      exact ih _ h2

theorem ctxAfter_append (a b : List PipelineStage) (ctx : PipelineContext) :
    ctxAfter (a ++ b) ctx = ctxAfter b (ctxAfter a ctx) := by
  induction a generalizing ctx with
  | nil => rfl
  | cons s rest ih =>
      simp only [List.cons_append, ctxAfter]
      exact ih _

/-- Under the append-only stage contract, the context after a stage list
holds the initial events followed by each stage's appended events in
execution order. -/
theorem ctxAfter_events (l : List PipelineStage) (ctx : PipelineContext)
    (hap : ∀ s ∈ l, ∀ c : PipelineContext,
      ∃ d, ((s.execute c).1).events = c.events ++ d) :
    (ctxAfter l ctx).events = ctx.events ++ (eventDeltas l ctx).flatten := by
  induction l generalizing ctx with
  | nil => simp [ctxAfter, eventDeltas]
  | cons s rest ih =>
      obtain ⟨d, hd⟩ := hap s (List.mem_cons_self s rest) ctx
      have ihr := ih (s.execute ctx).1
        (fun s' hs' => hap s' (List.mem_cons_of_mem _ hs'))
      simp only [ctxAfter, eventDeltas, List.flatten_cons, appendedEvents]
      rw [ihr, hd, List.drop_left, List.append_assoc]

/-- C1: (error case) if along the trace every stage before `sk` succeeds and
`sk` fails with `e`, the engine returns exactly `e`, the run coincides with
running only the stages up to and including `sk` (no later stage executes),
and — under the append-only event contract — the final `ctx.events` is the
initial events plus the events appended by stages `0..k-1` plus those `sk`
appended before failing.  (Success case) if every stage succeeds along the
trace, the run executes all stages strictly in order (the sequential fold)
and returns no error. -/
theorem c1_engine_error_propagation :
    (∀ (pre post : List PipelineStage) (sk : PipelineStage)
        (ctx : PipelineContext) (e : DomainError),
      okTrace pre ctx →
      (sk.execute (ctxAfter pre ctx)).2 = some e →
      (∀ s ∈ pre ++ [sk], ∀ c : PipelineContext,
        ∃ d, ((s.execute c).1).events = c.events ++ d) →
      PipelineEngine.run ⟨pre ++ sk :: post⟩ ctx =
          (ctxAfter (pre ++ [sk]) ctx, some e) ∧
      PipelineEngine.run ⟨pre ++ sk :: post⟩ ctx =
          PipelineEngine.run ⟨pre ++ [sk]⟩ ctx ∧
      (PipelineEngine.run ⟨pre ++ sk :: post⟩ ctx).1.events =
          ctx.events ++ (eventDeltas (pre ++ [sk]) ctx).flatten) ∧
    (∀ (stages : List PipelineStage) (ctx : PipelineContext),
      okTrace stages ctx →
      PipelineEngine.run ⟨stages⟩ ctx = (ctxAfter stages ctx, none)) := by
  constructor
  · intro pre post sk ctx e hok hf hap
    have hrun : PipelineEngine.run ⟨pre ++ sk :: post⟩ ctx =
        (ctxAfter (pre ++ [sk]) ctx, some e) := by
      show runStages (pre ++ sk :: post) ctx = _
      rw [runStages_append pre _ ctx hok, runStages_fail _ _ _ _ hf,
        ctxAfter_append]
      rfl
    have hrun' : PipelineEngine.run ⟨pre ++ [sk]⟩ ctx =
        (ctxAfter (pre ++ [sk]) ctx, some e) := by
      show runStages (pre ++ [sk]) ctx = _
      rw [runStages_append pre _ ctx hok, runStages_fail _ _ _ _ hf,
        ctxAfter_append]
      rfl
    refine ⟨hrun, hrun.trans hrun'.symm, ?_⟩
    rw [hrun]
    exact ctxAfter_events _ ctx hap
  · intro stages ctx h
    exact runStages_ok stages ctx h

/-- Witness for C1 at a concrete three-stage engine whose middle stage
appends an event and fails. -/
theorem c1_engine_error_propagation_witness :
    PipelineEngine.run ⟨[stA] ++ stFail :: [stB]⟩ ctx0w =
      (ctxAfter ([stA] ++ [stFail]) ctx0w, some err1) ∧
    (PipelineEngine.run ⟨[stA] ++ stFail :: [stB]⟩ ctx0w).1.events =
      ctx0w.events ++ (eventDeltas ([stA] ++ [stFail]) ctx0w).flatten ∧
    PipelineEngine.run ⟨[stA, stB]⟩ ctx0w =
      (ctxAfter [stA, stB] ctx0w, none) := by
  have h := c1_engine_error_propagation.1 [stA] [stB] stFail ctx0w err1
    ⟨rfl, trivial⟩ rfl
    (by
      intro s hs c
      simp only [List.mem_append, List.mem_singleton, List.mem_cons,
        List.not_mem_nil, or_false] at hs
      rcases hs with h | h <;> subst h
      · exact ⟨[.AlignmentUpdate [wA]], rfl⟩
      · exact ⟨[.ErrorEv "boom"], rfl⟩)
  exact ⟨h.1, h.2.2, c1_engine_error_propagation.2 [stA, stB] ctx0w
    ⟨rfl, rfl, trivial⟩⟩

/-! ## Claim C6 — whisper token timing bounds -/

/-- Timestamps produced by `to_ms_10ms_units` are multiples of 10 bounded by
`u64::MAX`, hence strictly below `U64MAX` (which is not a multiple of 10); in
particular the saturating `+1` on a token start never saturates. -/
theorem to_ms_lt_u64max (raw : ℤ) (m : ℕ)
    (h : to_ms_10ms_units raw = some m) : m < U64MAX := by
  unfold to_ms_10ms_units at h
  have hU : U64MAX = 18446744073709551615 := by norm_num [U64MAX]
  split_ifs at h with h1 h2 <;> simp_all
  omega

/-- The arithmetic core of the per-token bound: clamping the start into
`[seg_start, seg_end]` and the end into `[start+1, max(seg_end, start+1)]`
yields `seg_start ≤ start < end ≤ max(seg_end, start+1)`, provided
`seg_start ≤ seg_end < u64::MAX`. -/
theorem token_bounds_core (seg_start seg_end a cand : ℕ)
    (h1 : seg_start ≤ seg_end) (h2 : seg_end < U64MAX) :
    seg_start ≤ natClamp a seg_start seg_end ∧
    natClamp a seg_start seg_end <
      natClamp cand (satAdd (natClamp a seg_start seg_end) 1)
        (max seg_end (satAdd (natClamp a seg_start seg_end) 1)) ∧
    natClamp cand (satAdd (natClamp a seg_start seg_end) 1)
        (max seg_end (satAdd (natClamp a seg_start seg_end) 1)) ≤
      max seg_end (natClamp a seg_start seg_end + 1) := by
  have hU : U64MAX = 18446744073709551615 := by norm_num [U64MAX]
  simp only [natClamp, satAdd, hU] at h2 ⊢
  omega

/-- C6: every token derived by the whisper timing rules satisfies
`seg_start ≤ start < end ≤ max(seg_end, start+1)` (the hypothesis
`seg_end < u64::MAX` is discharged for every actually produced segment by
`to_ms_lt_u64max`, restated here as the second conjunct), and on adapter
success the transcription stage sets `ctx.transcript` and appends exactly one
`FinalTranscript` event. -/
theorem c6_whisper_token_bounds :
    (∀ (seg_start seg_end : ℕ) (raw : List RawTok),
      seg_start ≤ seg_end → seg_end < U64MAX →
      ∀ t ∈ deriveTokens seg_start seg_end raw,
        seg_start ≤ t.start_ms ∧ t.start_ms < t.end_ms ∧
          t.end_ms ≤ max seg_end (t.start_ms + 1)) ∧
    (∀ (raw : ℤ) (m : ℕ), to_ms_10ms_units raw = some m → m < U64MAX) ∧
    (∀ (adapter : TranscriptionRequest → Except DomainError TranscriptionOutput)
        (ctx : PipelineContext) (out : TranscriptionOutput),
      adapter ⟨ctx.language_hint, ctx.audio⟩ = .ok out →
      (whisperStageExecute adapter ctx).2 = none ∧
      (whisperStageExecute adapter ctx).1.transcript = some out.transcript ∧
      (whisperStageExecute adapter ctx).1.events =
        ctx.events ++ [DomainEvent.FinalTranscript out.transcript]) := by
  refine ⟨?_, to_ms_lt_u64max, ?_⟩
  · intro seg_start seg_end raw h1 h2 t ht
    simp only [deriveTokens, List.mem_map] at ht
    obtain ⟨it, hmem, rfl⟩ := ht
    exact token_bounds_core seg_start seg_end _ _ h1 h2
  · intro adapter ctx out h
    simp [whisperStageExecute, h]

/-- Witness for C6 at a concrete segment and a concrete adapter. -/
theorem c6_whisper_token_bounds_witness :
    (0 ≤ tW.start_ms ∧ tW.start_ms < tW.end_ms ∧
      tW.end_ms ≤ max 100 (tW.start_ms + 1)) ∧
    ((whisperStageExecute adapterW ctx0w).2 = none ∧
      (whisperStageExecute adapterW ctx0w).1.transcript = some tr0 ∧
      (whisperStageExecute adapterW ctx0w).1.events =
        ctx0w.events ++ [DomainEvent.FinalTranscript tr0]) :=
  ⟨c6_whisper_token_bounds.1 0 100 rawW (by decide)
      (by norm_num [U64MAX]) tW (by decide),
   c6_whisper_token_bounds.2.2 adapterW ctx0w ⟨tr0⟩ rfl⟩

/-! ## Claim C5 — linear-interpolation resampler -/

theorem resample_linear_small (samples : List F32) (source target : ℕ)
    (hst : source ≠ target) (hlen2 : ¬ samples.length ≤ 1)
    (hL : max (mulWrap samples.length target / source) 1 ≤ 1) :
    resample_linear samples source target = [samples.getD 0 .nan] := by
  simp only [resample_linear, if_neg hst, if_neg hlen2, if_pos hL]

theorem resample_linear_main (samples : List F32) (source target : ℕ)
    (hst : source ≠ target) (hlen2 : ¬ samples.length ≤ 1)
    (hL : ¬ max (mulWrap samples.length target / source) 1 ≤ 1) :
    resample_linear samples source target =
      (List.range (max (mulWrap samples.length target / source) 1)).map
        (fun i => specInterp samples source target i) := by
  simp only [resample_linear, if_neg hst, if_neg hlen2, if_neg hL]
  rfl

theorem rnd64_zero : rnd64 (.fin 0) = .fin 0 := by
  simp [rnd64, roundQ]

theorem rnd32_zero : rnd32 (.fin 0) = .fin 0 := by
  simp [rnd32, roundQ]

theorem rnd64_one : rnd64 (.fin 1) = .fin 1 := by
  have h : ratLog2 1 1 = 0 := by decide
  have hQ : max ((0 : ℤ) - (53 - 1)) (-1074) = -52 := by decide
  have ht : Int.toNat (52 : ℤ) = 52 := by decide
  norm_num [rnd64, roundQ, h, hQ, ht, maxFin64]

theorem rnd32_one : rnd32 (.fin 1) = .fin 1 := by
  have h : ratLog2 1 1 = 0 := by decide
  have hQ : max ((0 : ℤ) - (24 - 1)) (-149) = -23 := by decide
  have ht : Int.toNat (23 : ℤ) = 23 := by decide
  norm_num [rnd32, roundQ, h, hQ, ht, maxFin32]

theorem rnd64_three : rnd64 (.fin 3) = .fin 3 := by
  have h : ratLog2 3 1 = 1 := by decide
  have hQ : max ((1 : ℤ) - (53 - 1)) (-1074) = -51 := by decide
  have ht : Int.toNat (51 : ℤ) = 51 := by decide
  norm_num [rnd64, roundQ, h, hQ, ht, maxFin64]

/-- With `f32`-representable samples, the interpolation formula at index 0
reproduces the first sample exactly: every rounding in the chain is applied
to 0, 1, or an exactly representable sample. -/
theorem specInterp_zero_float (samples : List F32) (source target : ℕ)
    (h0 : 0 < samples.length) (htgt : target ≠ 0)
    (hfin : ∀ s ∈ samples, isRepr32 s) :
    specInterp samples source target 0 = samples.getD 0 .nan := by
  have hmem0 : samples.getD 0 .nan ∈ samples := by
    rw [List.getD_eq_getElem samples .nan h0]
    exact List.getElem_mem _
  have hr : min 1 (samples.length - 1) < samples.length := by omega
  have hmemr : samples.getD (min 1 (samples.length - 1)) .nan ∈ samples := by
    rw [List.getD_eq_getElem samples .nan hr]
    exact List.getElem_mem _
  obtain ⟨⟨q0, hq0⟩, hrep0⟩ := hfin _ hmem0
  obtain ⟨⟨qr, hqr⟩, hrepr⟩ := hfin _ hmemr
  have hc : ((target : ℚ)) ≠ 0 := Nat.cast_ne_zero.mpr htgt
  have e1 : f64ofNat 0 = .fin 0 := by
    simp [f64ofNat, Nat.cast_zero, rnd64_zero]
  have e2 : f64mul (.fin 0) (.fin (source : ℚ)) = .fin 0 := by
    simp [f64mul, F32.mul, rnd64_zero]
  have e3 : f64div (.fin 0) (.fin (target : ℚ)) = .fin 0 := by
    simp [f64div, F32.divE, hc, rnd64_zero]
  have e4 : floorCastUsize (.fin 0) = 0 := by
    simp [floorCastUsize]
  have e5 : f64sub (.fin 0) (.fin 0) = .fin 0 := by
    simp [f64sub, F32.sub, F32.neg, F32.add, rnd64_zero]
  have e6 : f32cast (.fin 0) = .fin 0 := by
    simp [f32cast, rnd32_zero]
  have e7 : f32sub (.fin 1) (.fin 0) = .fin 1 := by
    simp [f32sub, F32.sub, F32.neg, F32.add, rnd32_one]
  rw [hq0] at hrep0
  rw [hqr] at hrepr
  simp only [specInterp, e1, e2, e3, e4, e5, e6, e7]
  rw [hq0, hqr]
  have e8 : f32mul (.fin q0) (.fin 1) = .fin q0 := by
    simpa [f32mul, F32.mul, rnd32] using hrep0
  have e9 : f32mul (.fin qr) (.fin 0) = .fin 0 := by
    simp [f32mul, F32.mul, rnd32_zero]
  rw [e8, e9]
  simpa [f32add, F32.add, rnd32] using hrep0

/-- C5 (amended): for `N > 1` samples, `source ≠ target`, both rates
non-zero, a non-wrapping length product `N·target < 2^64`, and finite
`f32`-representable samples: the output length is
`L = max(1, ⌊N·target/source⌋)`; every output index obeys the claim's
formula in the claim's stated precisions — `p = i·source/target` in double
precision, `l = ⌊p⌋`, `r = min(l+1, N-1)`, `f = (p-l)` as `f32`,
`out[i] = samples[l]·(1-f) + samples[r]·f` in `f32` — so the last output
interpolates between the *adjacent* pair `samples[l]`, `samples[r]`, which
are the last two inputs only in special cases (e.g. exact-arithmetic
upsampling), not in general; `out[0] = samples[0]`; and after the stage the
context's sample rate equals the target with `audio.resampled = true`. -/
theorem c5_resample_linear_amended (samples : List F32) (source target : ℕ)
    (hN : 1 < samples.length) (hst : source ≠ target)
    (hsrc : source ≠ 0) (htgt : target ≠ 0)
    (hnw : samples.length * target < 2 ^ 64)
    (hfin : ∀ s ∈ samples, isRepr32 s) :
    (resample_linear samples source target).length =
      max 1 (samples.length * target / source) ∧
    (∀ i < max 1 (samples.length * target / source),
      (resample_linear samples source target).get? i =
        some (specInterp samples source target i)) ∧
    (resample_linear samples source target).get? 0 = samples.get? 0 ∧
    (∀ ctx : PipelineContext, ctx.audio.sample_rate_hz = source →
      ctx.audio.samples = samples →
      (resampleStageExecute target ctx).2 = none ∧
      (resampleStageExecute target ctx).1.audio.sample_rate_hz = target ∧
      (resampleStageExecute target ctx).1.audio.samples =
        resample_linear samples source target ∧
      (resampleStageExecute target ctx).1.extension "audio.resampled" =
        some (.jbool true)) := by
  have hw : mulWrap samples.length target = samples.length * target :=
    Nat.mod_eq_of_lt hnw
  have hlen2 : ¬ samples.length ≤ 1 := by omega
  have hstage : ∀ ctx : PipelineContext, ctx.audio.sample_rate_hz = source →
      ctx.audio.samples = samples →
      (resampleStageExecute target ctx).2 = none ∧
      (resampleStageExecute target ctx).1.audio.sample_rate_hz = target ∧
      (resampleStageExecute target ctx).1.audio.samples =
        resample_linear samples source target ∧
      (resampleStageExecute target ctx).1.extension "audio.resampled" =
        some (.jbool true) := by
    intro ctx hrate hsamp
    have hz : ¬ (source = 0 ∨ target = 0) := by
      rintro (h | h)
      exacts [hsrc h, htgt h]
    have hno : ¬ (source = target ∨ samples = []) := by
      rintro (h | h)
      · exact hst h
      · rw [h] at hN
        simp at hN
    refine ⟨?_, ?_, ?_, ?_⟩ <;>
      simp only [resampleStageExecute, hrate, hsamp, if_neg hz, if_neg hno,
        PipelineContext.setExtension, PipelineContext.extension]
    rw [getExt_setExt_ne _ _ _ _ (by decide), getExt_setExt_ne _ _ _ _ (by decide)]
    exact getExt_setExt_same _ _ _
  by_cases hL : max (mulWrap samples.length target / source) 1 ≤ 1
  · have hout := resample_linear_small samples source target hst hlen2 hL
    have hL1 : max 1 (samples.length * target / source) = 1 := by
      rw [hw] at hL
      omega
    have hget : ∀ i < max 1 (samples.length * target / source),
        (resample_linear samples source target).get? i =
          some (specInterp samples source target i) := by
      intro i hi
      rw [hL1] at hi
      have hi0 : i = 0 := by omega
      subst hi0
      rw [hout, specInterp_zero_float samples source target (by omega) htgt hfin]
      rfl
    refine ⟨?_, hget, ?_, hstage⟩
    · rw [hout, hL1]
      rfl
    · rw [hout]
      have h0 : 0 < samples.length := by omega
      simp [List.getD_eq_getElem samples .nan h0, List.get?_eq_getElem?,
        List.getElem?_eq_getElem h0]
  · have hout := resample_linear_main samples source target hst hlen2 hL
    have hget : ∀ i < max 1 (samples.length * target / source),
        (resample_linear samples source target).get? i =
          some (specInterp samples source target i) := by
      intro i hi
      rw [hw] at hL
      rw [hout, List.get?_map, List.get?_range (by rw [hw]; omega)]
      rfl
    refine ⟨?_, hget, ?_, hstage⟩
    · rw [hout]
      simp [hw, Nat.max_comm]
    · rw [hget 0 (by omega),
        specInterp_zero_float samples source target (by omega) htgt hfin]
      have h0 : 0 < samples.length := by omega
      simp [List.getD_eq_getElem samples .nan h0, List.get?_eq_getElem?,
        List.getElem?_eq_getElem h0]

/-- C5 (counterexample): downsampling `sW` from rate 3 to rate 1 gives
`L = 2` outputs, every arithmetic step is exact (so `f64`/`f32` rounding is
the identity on it), and `out[L-1] = samples[3] = 0`, which is *not* a
convex combination of the last two input samples (both `1`): the claim's
endpoint statement fails for downsampling. -/
theorem c5_resample_counterexample :
    resample_linear sW 3 1 = [.fin 0, .fin 0] ∧
    sW.get? 4 = some (.fin 1) ∧ sW.get? 5 = some (.fin 1) ∧
    ¬ ∃ α β : ℚ, 0 ≤ α ∧ 0 ≤ β ∧ α + β = 1 ∧
      F32.fin 0 = ((F32.fin 1).mul (.fin α)).add ((F32.fin 1).mul (.fin β)) := by
  refine ⟨?_, rfl, rfl, ?_⟩
  · have hmain := resample_linear_main sW 3 1 (by decide) (by decide) (by decide)
    have hrange : max (mulWrap sW.length 1 / 3) 1 = 2 := by decide
    have hlist : List.range 2 = [0, 1] := by decide
    have hfinW : ∀ s ∈ sW, isRepr32 s := by
      intro s hs
      simp [sW] at hs
      rcases hs with rfl | rfl
      · exact ⟨⟨0, rfl⟩, rnd32_zero⟩
      · exact ⟨⟨1, rfl⟩, rnd32_one⟩
    have h0 : specInterp sW 3 1 0 = .fin 0 := by
      rw [specInterp_zero_float sW 3 1 (by decide) (by decide) hfinW]
      rfl
    have h1 : specInterp sW 3 1 1 = .fin 0 := by
      have ht3 : Int.toNat (3 : ℤ) = 3 := by decide
      simp only [specInterp]
      norm_num [f64ofNat, f64mul, f64div, f64sub, f32cast, f32mul, f32add,
        f32sub, F32.mul, F32.add, F32.sub, F32.neg, F32.divE, floorCastUsize,
        rnd64_zero, rnd64_one, rnd64_three, rnd32_zero, rnd32_one, U64MAX, sW,
        ht3, List.getD_cons_succ, List.getD_cons_zero]
    rw [hmain, hrange, hlist]
    simp [h0, h1]
  · rintro ⟨α, β, hα, hβ, hsum, heq⟩
    simp [F32.mul, F32.add] at heq
    have : (0 : ℚ) = 1 := by linarith
    norm_num at this

/-- Witness for C5 (amended) at a concrete upsampling input. -/
theorem c5_resample_linear_witness :
    (resample_linear [F32.fin 0, F32.fin 1] 1 2).length =
      max 1 ([F32.fin 0, F32.fin 1].length * 2 / 1) ∧
    (resample_linear [F32.fin 0, F32.fin 1] 1 2).get? 0 =
      [F32.fin 0, F32.fin 1].get? 0 := by
  have h := c5_resample_linear_amended [F32.fin 0, F32.fin 1] 1 2
    (by decide) (by decide) (by decide) (by decide) (by norm_num)
    (by
      intro s hs
      simp at hs
      rcases hs with rfl | rfl
      · exact ⟨⟨0, rfl⟩, rnd32_zero⟩
      · exact ⟨⟨1, rfl⟩, rnd32_one⟩)
  exact ⟨h.1, h.2.2.1⟩
